import Mathlib

/-!
# Verification of the FNAF-V3 WebRTC signaling server core

Shallow embedding of `src/server/routes.ts`: the client registry
(`clients : Map<string, Client>`), the per-connection message handler
(`ws.on("message")`), the close handler (`ws.on("close")`), and the id
generator (`generateId`).  JS `Map` is modelled as an association list with
JS `Map.set` / `Map.delete` / `Map.get` semantics (insertion order kept,
`set` on an existing key updates in place).  A WebSocket channel handle is
modelled as a `Nat`.  `Math.random().toString(36).substr(2, 9)` is an
environment-supplied string (`rand`), and `Date.now()` an environment
supplied `Nat` (`now`); both are parameters of each `register` event.
-/

namespace Signaling

/-- The record `interface Client` from routes.ts.  `role` is an unvalidated string
(the code stores `msg.role` without checking it). -/
structure Client where
  id : String
  role : String
  name : String
  ws : Nat
deriving DecidableEq, Repr

/-- The `clients` map: association list with JS `Map` semantics. -/
abbrev Registry := List (String × Client)

/-- Models `clients.get(k)`. -/
def mapGet : Registry → String → Option Client
  | [], _ => none
  | (k, v) :: rest, k' => if k = k' then some v else mapGet rest k'

/-- Key membership of the `clients` map. -/
def keyMem (m : Registry) (k : String) : Bool :=
  m.any (fun p => p.1 == k)

/-- Models `clients.set(k, v)`: update in place if the key is present, else append. -/
def mapSet (m : Registry) (k : String) (v : Client) : Registry :=
  if keyMem m k then m.map (fun p => if p.1 = k then (k, v) else p)
  else m ++ [(k, v)]

/-- Models `clients.delete(k)`. -/
def mapDelete (m : Registry) (k : String) : Registry :=
  m.filter (fun p => p.1 != k)

/-- Models `Array.from(clients.values())`. -/
def mapValues (m : Registry) : List Client :=
  m.map (fun p => p.2)

/-- Models `getCameras()`: `Array.from(clients.values()).filter(c => c.role === "camera")`. -/
def getCameras (m : Registry) : List Client :=
  (mapValues m).filter (fun c => c.role == "camera")

/-- Models `getMonitors()`: `Array.from(clients.values()).filter(c => c.role === "monitor")`. -/
def getMonitors (m : Registry) : List Client :=
  (mapValues m).filter (fun c => c.role == "monitor")

/-- One base-36 digit, as produced by JS `Number.prototype.toString(36)`. -/
def base36Char (n : Nat) : Char :=
  if n < 10 then Char.ofNat (48 + n) else Char.ofNat (87 + n)

/-- Fuelled accumulator for base-36 rendering. -/
def toB36Aux : Nat → Nat → List Char → List Char
  | 0, _, acc => acc
  | fuel + 1, n, acc =>
    if n = 0 then acc else toB36Aux fuel (n / 36) (base36Char (n % 36) :: acc)

/-- Renders `n.toString(36)` for a natural number (how `Date.now().toString(36)` renders). -/
def natToBase36 (n : Nat) : String :=
  if n = 0 then "0" else ⟨toB36Aux (n + 1) n []⟩

/-- Models `generateId()`:
`Date.now().toString(36) + Math.random().toString(36).substr(2, 9)`;
`now` is the clock reading and `rand` the rendering of the random component. -/
def generateId (now : Nat) (rand : String) : String :=
  natToBase36 now ++ rand

/-- Models `msg.name || "Unknown"` — JS `||` treats the empty string as falsy. -/
def orUnknown : Option String → String
  | none => "Unknown"
  | some s => if s = "" then "Unknown" else s

/-- Inbound frames, after `JSON.parse` and the `switch (msg.type)` dispatch.
Opaque payloads (`msg.offer`, `msg.answer`, `msg.candidate`, `msg.fromId`,
`msg.cameraName`) are carried as strings.  `other` is a parsed message whose
`type` is none of the four known discriminants; `malformed` is a frame on
which `JSON.parse` throws (caught and logged by the handler). -/
inductive InMsg where
  | register (role : String) (name : Option String) (now : Nat) (rand : String)
  | offer (targetId offerPayload fromId cameraName : String)
  | answer (targetId answerPayload fromId : String)
  | ice (targetId candidate fromId : String)
  | other
  | malformed
deriving DecidableEq, Repr

/-- Outbound frames the server sends. -/
inductive OutMsg where
  | registered (id : String)
  | requestOffer (monitorId : String)
  | offer (offerPayload fromId cameraName : String)
  | answer (answerPayload fromId : String)
  | ice (candidate fromId : String)
  | cameraDisconnected (cameraId : String)
  | monitorDisconnected (monitorId : String)
deriving DecidableEq, Repr

/-- A send: `(channel handle, frame)` for each `x.ws.send(...)`. -/
abbrev Send := Nat × OutMsg

/-- The body of `ws.on("message", ...)` for one inbound frame on channel
`ws`, given the current registry and the `clientId` variable of the connection.
Returns the new registry, the new `clientId`, and the sends in order. -/
def handleMessage (ws : Nat) (clients : Registry) (clientId : Option String) :
    InMsg → Registry × Option String × List Send
  | .register role name now rand =>
    let cid := generateId now rand
    let client : Client := ⟨cid, role, orUnknown name, ws⟩
    let cl1 := mapSet clients cid client
    let monitorSends :=
      if role = "monitor" then
        (getCameras cl1).map (fun cam => (cam.ws, OutMsg.requestOffer cid))
      else []
    let cameraSends :=
      if role = "camera" then
        (getMonitors cl1).map (fun monitor => (ws, OutMsg.requestOffer monitor.id))
      else []
    (cl1, some cid, (ws, OutMsg.registered cid) :: monitorSends ++ cameraSends)
  | .offer targetId offerPayload fromId cameraName =>
    match mapGet clients targetId with
    | some target =>
      (clients, clientId, [(target.ws, OutMsg.offer offerPayload fromId cameraName)])
    | none => (clients, clientId, [])
  | .answer targetId answerPayload fromId =>
    match mapGet clients targetId with
    | some target => (clients, clientId, [(target.ws, OutMsg.answer answerPayload fromId)])
    | none => (clients, clientId, [])
  | .ice targetId candidate fromId =>
    match mapGet clients targetId with
    | some target => (clients, clientId, [(target.ws, OutMsg.ice candidate fromId)])
    | none => (clients, clientId, [])
  | .other => (clients, clientId, [])
  | .malformed => (clients, clientId, [])

/-- The body of `ws.on("close", ...)`: if the connection registered
(`clientId` truthy — generated ids are never the empty string) and its
entry is still present, notify the opposite role and delete the entry. -/
def handleClose (clients : Registry) (clientId : Option String) :
    Registry × List Send :=
  match clientId with
  | none => (clients, [])
  | some cid =>
    match mapGet clients cid with
    | none => (clients, [])
    | some client =>
      let cameraSends :=
        if client.role = "camera" then
          (getMonitors clients).map (fun monitor => (monitor.ws, OutMsg.cameraDisconnected cid))
        else []
      let monitorSends :=
        if client.role = "monitor" then
          (getCameras clients).map (fun cam => (cam.ws, OutMsg.monitorDisconnected cid))
        else []
      (mapDelete clients cid, cameraSends ++ monitorSends)

/-- External events on the server: a new WebSocket connection (handle `c`),
an inbound frame on `c`, or the close of `c`. -/
inductive Event where
  | connect (c : Nat)
  | msg (c : Nat) (m : InMsg)
  | close (c : Nat)
deriving DecidableEq, Repr

/-- The field `conns` maps each open connection handle to its `clientId` closure
variable; `closedConns` records handles whose close event already fired
(a closed connection emits no further events). -/
structure SState where
  clients : Registry
  conns : List (Nat × Option String)
  closedConns : List Nat
deriving DecidableEq, Repr

/-- Look up the `clientId` variable of an open connection. -/
def lookupConn : List (Nat × Option String) → Nat → Option (Option String)
  | [], _ => none
  | (c, v) :: rest, c' => if c = c' then some v else lookupConn rest c'

/-- Assign the `clientId` variable of a connection. -/
def updateConn (l : List (Nat × Option String)) (c : Nat) (v : Option String) :
    List (Nat × Option String) :=
  l.map (fun p => if p.1 = c then (c, v) else p)

/-- Drop a connection on close. -/
def removeConn (l : List (Nat × Option String)) (c : Nat) :
    List (Nat × Option String) :=
  l.filter (fun p => p.1 != c)

/-- Server startup: empty registry, no connections. -/
def initState : SState := ⟨[], [], []⟩

/-- One event dispatched by the (logically single-threaded) event loop.
Events on unknown or closed connections are ignored. -/
def step (s : SState) : Event → SState × List Send
  | .connect c =>
    if (lookupConn s.conns c).isSome || s.closedConns.contains c then (s, [])
    else ({ s with conns := s.conns ++ [(c, none)] }, [])
  | .msg c m =>
    match lookupConn s.conns c with
    | some cid =>
      let r := handleMessage c s.clients cid m
      ({ s with clients := r.1, conns := updateConn s.conns c r.2.1 }, r.2.2)
    | none => (s, [])
  | .close c =>
    match lookupConn s.conns c with
    | some cid =>
      let r := handleClose s.clients cid
      ({ clients := r.1, conns := removeConn s.conns c,
         closedConns := s.closedConns ++ [c] }, r.2)
    | none => (s, [])

/-- Run a trace of events from a state, collecting all sends in order. -/
def runFrom (s : SState) : List Event → SState × List Send
  | [] => (s, [])
  | e :: es =>
    let r := step s e
    let r2 := runFrom r.1 es
    (r2.1, r.2 ++ r2.2)

/-- Final state of a trace from startup. -/
def run (tr : List Event) : SState := (runFrom initState tr).1

/-- All sends of a trace from startup, in order. -/
def runOut (tr : List Event) : List Send := (runFrom initState tr).2

/-- The registration-tracking invariant over the registry and the open
connections: open-connection handles are pairwise distinct, the Registry
holds an id exactly when the `clientId` variable of some open connection
holds it, and no two open connections hold the same id. -/
def InvParts (clients : Registry) (conns : List (Nat × Option String)) : Prop :=
  (conns.map Prod.fst).Nodup ∧
  (∀ id, keyMem clients id = true ↔ ∃ c, (c, some id) ∈ conns) ∧
  (∀ c1 c2 id, (c1, some id) ∈ conns → (c2, some id) ∈ conns → c1 = c2)

/-- The registration-tracking invariant of a server state. -/
def Inv (s : SState) : Prop := InvParts s.clients s.conns

/-- A step is good when any `register` it performs happens on a
connection that has not registered before and generates an id that is not
currently a Registry key (no re-registration, no generator collision). -/
def goodStep (s : SState) : Event → Bool
  | .msg c (.register _ _ now rand) =>
    match lookupConn s.conns c with
    | some none => !(keyMem s.clients (generateId now rand))
    | some (some _) => false
    | none => true
  | _ => true

/-- Every step of the trace is good in the state it runs from. -/
def goodTrace : SState → List Event → Bool
  | _, [] => true
  | s, e :: es => goodStep s e && goodTrace (step s e).1 es

/-! ## Concrete sample data used by witnesses and counterexamples -/

/-- A registered camera used in witness instantiations. -/
def camA : Client := ⟨"ca", "camera", "A", 10⟩

/-- A second registered camera used in witness instantiations. -/
def camB : Client := ⟨"cb", "camera", "B", 11⟩

/-- A registered monitor used in witness instantiations. -/
def monC : Client := ⟨"mc", "monitor", "C", 12⟩

/-- A sample registry with two cameras and one monitor. -/
def regW : Registry := [("ca", camA), ("cb", camB), ("mc", monC)]

/-- A trace in which connection 0 registers twice (allowed by the
protocol) and then closes. -/
def trStale : List Event :=
  [Event.connect 0,
   Event.msg 0 (InMsg.register "camera" none 0 "aaa"),
   Event.msg 0 (InMsg.register "camera" none 0 "bbb"),
   Event.close 0]

/-- A trace in which connection 0 registers with clock reading 0 and
random component `aaa`, then connection 1 arrives. -/
def trColl : List Event :=
  [Event.connect 0,
   Event.msg 0 (InMsg.register "camera" none 0 "aaa"),
   Event.connect 1]

/-- Extends `trColl` by a second `register` whose clock reading and
random outcome repeat those of the first. -/
def trColl2 : List Event :=
  trColl ++ [Event.msg 1 (InMsg.register "monitor" none 0 "aaa")]

/-- A good trace: one connection, one registration with a fresh id. -/
def trGood : List Event :=
  [Event.connect 0, Event.msg 0 (InMsg.register "camera" none 0 "aaa")]

/-! ## Registry lemmas -/

theorem keyMem_cons {a : String} {b : Client} {m : Registry} {k : String} :
    keyMem ((a, b) :: m) k = true ↔ a = k ∨ keyMem m k = true := by
  simp [keyMem, List.any_cons]

theorem keyMem_iff {m : Registry} {k : String} :
    keyMem m k = true ↔ ∃ p ∈ m, p.1 = k := by
  simp [keyMem, List.any_eq_true]

theorem mapSet_of_fresh (m : Registry) (k : String) (v : Client)
    (h : keyMem m k = false) : mapSet m k v = m ++ [(k, v)] := by
  simp [mapSet, h]

theorem mapGet_append_single (m : Registry) (k : String) (v : Client)
    (h : keyMem m k = false) : mapGet (m ++ [(k, v)]) k = some v := by
  induction m with
  | nil => simp [mapGet]
  | cons p rest ih =>
    rcases p with ⟨a, b⟩
    have hak : ¬(a = k) := by
      intro hc
      have : keyMem ((a, b) :: rest) k = true := keyMem_cons.2 (Or.inl hc)
      rw [h] at this
      exact Bool.false_ne_true this
    have hrest : keyMem rest k = false := by
      cases hr : keyMem rest k with
      | false => rfl
      | true =>
        have : keyMem ((a, b) :: rest) k = true := keyMem_cons.2 (Or.inr hr)
        rw [h] at this
        exact absurd this Bool.false_ne_true
    simpa [mapGet, hak] using ih hrest

theorem mapGet_overwrite (m : Registry) (k : String) (v : Client)
    (h : keyMem m k = true) :
    mapGet (m.map (fun p => if p.1 = k then (k, v) else p)) k = some v := by
  induction m with
  | nil => simp [keyMem] at h
  | cons p rest ih =>
    rcases p with ⟨a, b⟩
    by_cases hak : a = k
    · subst hak
      rw [List.map_cons, if_pos rfl]
      simp [mapGet]
    · have hrest : keyMem rest k = true := by
        rcases keyMem_cons.1 h with hc | hc
        · exact absurd hc hak
        · exact hc
      rw [List.map_cons, if_neg hak]
      simpa [mapGet, hak] using ih hrest

theorem mapGet_mapSet_self (m : Registry) (k : String) (v : Client) :
    mapGet (mapSet m k v) k = some v := by
  unfold mapSet
  cases h : keyMem m k with
  | false => simpa [h] using mapGet_append_single m k v h
  | true => simpa [h] using mapGet_overwrite m k v h

theorem mapGet_mapDelete_self (m : Registry) (k : String) :
    mapGet (mapDelete m k) k = none := by
  induction m with
  | nil => rfl
  | cons p rest ih =>
    rcases p with ⟨a, b⟩
    by_cases hak : a = k
    · simpa [mapDelete, hak] using ih
    · simpa [mapDelete, mapGet, hak, List.filter_cons] using ih

theorem mapValues_append (m : Registry) (k : String) (v : Client) :
    mapValues (m ++ [(k, v)]) = mapValues m ++ [v] := by
  simp [mapValues]

theorem getCameras_append (m : Registry) (k : String) (v : Client) :
    getCameras (m ++ [(k, v)]) =
      getCameras m ++ if v.role == "camera" then [v] else [] := by
  by_cases h : v.role = "camera" <;>
    simp [getCameras, mapValues_append, List.filter_append, List.filter_singleton, h]

theorem getMonitors_append (m : Registry) (k : String) (v : Client) :
    getMonitors (m ++ [(k, v)]) =
      getMonitors m ++ if v.role == "monitor" then [v] else [] := by
  by_cases h : v.role = "monitor" <;>
    simp [getMonitors, mapValues_append, List.filter_append, List.filter_singleton, h]

theorem mapGet_isSome_of_keyMem {m : Registry} {k : String}
    (h : keyMem m k = true) : ∃ v, mapGet m k = some v := by
  induction m with
  | nil => simp [keyMem] at h
  | cons p rest ih =>
    rcases p with ⟨a, b⟩
    by_cases hak : a = k
    · exact ⟨b, by simp [mapGet, hak]⟩
    · have hrest : keyMem rest k = true := by
        rcases keyMem_cons.1 h with hc | hc
        · exact absurd hc hak
        · exact hc
      obtain ⟨v, hv⟩ := ih hrest
      exact ⟨v, by simp [mapGet, hak, hv]⟩

theorem keyMem_mapSet_iff {m : Registry} {k id : String} {v : Client} :
    keyMem (mapSet m k v) id = true ↔ keyMem m id = true ∨ id = k := by
  unfold mapSet
  cases hk : keyMem m k with
  | false =>
    rw [if_neg (by simp [hk])]
    constructor
    · intro h
      rcases keyMem_iff.1 h with ⟨p, hp, hpid⟩
      rcases List.mem_append.1 hp with hp | hp
      · exact Or.inl (keyMem_iff.2 ⟨p, hp, hpid⟩)
      · simp only [List.mem_singleton] at hp
        subst hp
        exact Or.inr hpid.symm
    · rintro (h | rfl)
      · rcases keyMem_iff.1 h with ⟨p, hp, hpid⟩
        exact keyMem_iff.2 ⟨p, List.mem_append_left _ hp, hpid⟩
      · exact keyMem_iff.2 ⟨(id, v), List.mem_append_right _ (List.mem_singleton.2 rfl), rfl⟩
  | true =>
    rw [if_pos (by simp [hk])]
    constructor
    · intro h
      rcases keyMem_iff.1 h with ⟨q, hq, hqid⟩
      rcases List.mem_map.1 hq with ⟨p, hp, hfp⟩
      by_cases hpc : p.1 = k
      · rw [if_pos hpc] at hfp
        subst hfp
        exact Or.inr hqid.symm
      · rw [if_neg hpc] at hfp
        subst hfp
        exact Or.inl (keyMem_iff.2 ⟨p, hp, hqid⟩)
    · rintro (h | rfl)
      · rcases keyMem_iff.1 h with ⟨p, hp, hpid⟩
        by_cases hpc : p.1 = k
        · exact keyMem_iff.2
            ⟨(k, v), List.mem_map.2 ⟨p, hp, if_pos hpc⟩, by rw [← hpid, hpc]⟩
        · exact keyMem_iff.2 ⟨p, List.mem_map.2 ⟨p, hp, if_neg hpc⟩, hpid⟩
      · rcases keyMem_iff.1 hk with ⟨p, hp, hpk⟩
        exact keyMem_iff.2 ⟨(id, v), List.mem_map.2 ⟨p, hp, if_pos hpk⟩, rfl⟩

theorem keyMem_mapDelete_iff {m : Registry} {k id : String} :
    keyMem (mapDelete m k) id = true ↔ keyMem m id = true ∧ id ≠ k := by
  constructor
  · intro h
    rcases keyMem_iff.1 h with ⟨p, hp, hpid⟩
    rcases List.mem_filter.1 hp with ⟨hpm, hpk⟩
    rw [bne_iff_ne] at hpk
    exact ⟨keyMem_iff.2 ⟨p, hpm, hpid⟩, hpid ▸ hpk⟩
  · rintro ⟨h, hne⟩
    rcases keyMem_iff.1 h with ⟨p, hp, hpid⟩
    exact keyMem_iff.2
      ⟨p, List.mem_filter.2 ⟨hp, bne_iff_ne.2 (hpid ▸ hne)⟩, hpid⟩

/-! ## Connection-list lemmas -/

theorem lookupConn_mem {l : List (Nat × Option String)} {c : Nat}
    {v : Option String} (h : lookupConn l c = some v) : (c, v) ∈ l := by
  induction l with
  | nil => simp [lookupConn] at h
  | cons p rest ih =>
    rcases p with ⟨a, b⟩
    by_cases hac : a = c
    · subst hac
      rw [lookupConn, if_pos rfl] at h
      cases Option.some.inj h
      exact List.mem_cons_self _ _
    · rw [lookupConn, if_neg hac] at h
      exact List.mem_cons_of_mem _ (ih h)

theorem lookupConn_none_iff {l : List (Nat × Option String)} {c : Nat} :
    lookupConn l c = none ↔ c ∉ l.map Prod.fst := by
  induction l with
  | nil => simp [lookupConn]
  | cons p rest ih =>
    rcases p with ⟨a, b⟩
    by_cases hac : a = c
    · subst hac
      simp [lookupConn]
    · simp [lookupConn, hac, ih, Ne.symm hac]

theorem mem_lookupConn_of_nodup {l : List (Nat × Option String)}
    (hnd : (l.map Prod.fst).Nodup) {c : Nat} {v : Option String}
    (h : (c, v) ∈ l) : lookupConn l c = some v := by
  induction l with
  | nil => simp at h
  | cons p rest ih =>
    rcases p with ⟨a, b⟩
    rcases List.mem_cons.1 h with h | h
    · rw [Prod.mk.injEq] at h
      obtain ⟨h1, h2⟩ := h
      subst h1
      subst h2
      simp [lookupConn]
    · have hac : a ≠ c := by
        intro hac
        subst hac
        have : a ∈ rest.map Prod.fst := List.mem_map.2 ⟨(a, v), h, rfl⟩
        exact (List.nodup_cons.1 (by simpa using hnd)).1 this
      have hnd2 : (rest.map Prod.fst).Nodup :=
        (List.nodup_cons.1 (by simpa using hnd)).2
      simp [lookupConn, hac, ih hnd2 h]

theorem conn_val_unique {l : List (Nat × Option String)}
    (hnd : (l.map Prod.fst).Nodup) {c : Nat} {v w : Option String}
    (h1 : (c, v) ∈ l) (h2 : (c, w) ∈ l) : v = w := by
  have e1 := mem_lookupConn_of_nodup hnd h1
  have e2 := mem_lookupConn_of_nodup hnd h2
  rw [e1] at e2
  exact Option.some.inj e2

theorem mem_updateConn {l : List (Nat × Option String)} {c : Nat}
    {v : Option String} {c2 : Nat} {w : Option String} :
    (c2, w) ∈ updateConn l c v ↔
      (c2 = c ∧ w = v ∧ ∃ w0, (c, w0) ∈ l) ∨ (c2 ≠ c ∧ (c2, w) ∈ l) := by
  constructor
  · intro h
    rcases List.mem_map.1 h with ⟨p, hp, hfp⟩
    by_cases hpc : p.1 = c
    · rw [if_pos hpc] at hfp
      rw [Prod.mk.injEq] at hfp
      refine Or.inl ⟨hfp.1.symm, hfp.2.symm, ⟨p.2, ?_⟩⟩
      rw [← hpc]
      exact hp
    · rw [if_neg hpc] at hfp
      subst hfp
      exact Or.inr ⟨hpc, hp⟩
  · rintro (⟨rfl, rfl, w0, hw0⟩ | ⟨hne, hmem⟩)
    · exact List.mem_map.2 ⟨(c2, w0), hw0, if_pos rfl⟩
    · exact List.mem_map.2 ⟨(c2, w), hmem, if_neg hne⟩

theorem keys_updateConn (l : List (Nat × Option String)) (c : Nat)
    (v : Option String) :
    (updateConn l c v).map Prod.fst = l.map Prod.fst := by
  induction l with
  | nil => rfl
  | cons p rest ih =>
    by_cases hpc : p.1 = c
    · simp only [updateConn, List.map_cons] at ih ⊢
      rw [if_pos hpc]
      simp [hpc, ih]
    · simp only [updateConn, List.map_cons] at ih ⊢
      rw [if_neg hpc]
      simp [ih]

theorem mem_removeConn {l : List (Nat × Option String)} {c : Nat}
    {p : Nat × Option String} :
    p ∈ removeConn l c ↔ p ∈ l ∧ p.1 ≠ c := by
  simp [removeConn, List.mem_filter, bne_iff_ne]

theorem keys_removeConn_sublist (l : List (Nat × Option String)) (c : Nat) :
    ((removeConn l c).map Prod.fst).Sublist (l.map Prod.fst) :=
  (List.filter_sublist l).map Prod.fst

theorem updateConn_of_not_mem {l : List (Nat × Option String)} {c : Nat}
    (h : c ∉ l.map Prod.fst) (v : Option String) : updateConn l c v = l := by
  induction l with
  | nil => rfl
  | cons p rest ih =>
    simp only [List.map_cons, List.mem_cons] at h
    push_neg at h
    simp only [updateConn, List.map_cons]
    rw [if_neg (fun hc => h.1 hc.symm)]
    have := ih h.2
    simp only [updateConn] at this
    rw [this]

theorem updateConn_self {l : List (Nat × Option String)}
    (hnd : (l.map Prod.fst).Nodup) {c : Nat} {v : Option String}
    (h : (c, v) ∈ l) : updateConn l c v = l := by
  induction l with
  | nil => rfl
  | cons p rest ih =>
    rcases p with ⟨a, b⟩
    have hnd1 : a ∉ rest.map Prod.fst := (List.nodup_cons.1 (by simpa using hnd)).1
    have hnd2 : (rest.map Prod.fst).Nodup := (List.nodup_cons.1 (by simpa using hnd)).2
    rcases List.mem_cons.1 h with h | h
    · rw [Prod.mk.injEq] at h
      obtain ⟨h1, h2⟩ := h
      subst h1
      subst h2
      simp only [updateConn, List.map_cons]
      rw [ite_self]
      have := updateConn_of_not_mem hnd1 v
      simp only [updateConn] at this
      rw [this]
    · have hac : a ≠ c := by
        intro hac
        subst hac
        exact hnd1 (List.mem_map.2 ⟨(a, v), h, rfl⟩)
      simp only [updateConn, List.map_cons]
      rw [if_neg hac]
      have := ih hnd2 h
      simp only [updateConn] at this
      rw [this]

/-! ## Handler-level frame lemmas -/

theorem handleMessage_preserves (ws : Nat) (clients : Registry)
    (clientId : Option String) (m : InMsg)
    (hm : ∀ role name now rand, m ≠ InMsg.register role name now rand) :
    (handleMessage ws clients clientId m).1 = clients ∧
    (handleMessage ws clients clientId m).2.1 = clientId := by
  cases m with
  | register role name now rand => exact absurd rfl (hm role name now rand)
  | offer t a b cn => cases h : mapGet clients t <;> simp [handleMessage, h]
  | answer t a b => cases h : mapGet clients t <;> simp [handleMessage, h]
  | ice t a b => cases h : mapGet clients t <;> simp [handleMessage, h]
  | other => exact ⟨rfl, rfl⟩
  | malformed => exact ⟨rfl, rfl⟩

theorem keyMem_handleMessage (ws : Nat) (clients : Registry)
    (clientId : Option String) (m : InMsg) (id : String)
    (h : keyMem (handleMessage ws clients clientId m).1 id = true) :
    keyMem clients id = true ∨
      (ws, OutMsg.registered id) ∈ (handleMessage ws clients clientId m).2.2 := by
  by_cases hr : ∃ role name now rand, m = InMsg.register role name now rand
  · obtain ⟨role, name, now, rand, rfl⟩ := hr
    simp only [handleMessage] at h ⊢
    rcases keyMem_mapSet_iff.1 h with h1 | rfl
    · exact Or.inl h1
    · right
      simp
  · push_neg at hr
    rw [(handleMessage_preserves ws clients clientId m hr).1] at h
    exact Or.inl h

theorem keyMem_handleClose (clients : Registry) (clientId : Option String)
    (id : String) (h : keyMem (handleClose clients clientId).1 id = true) :
    keyMem clients id = true := by
  cases clientId with
  | none => exact h
  | some cid =>
    cases hg : mapGet clients cid with
    | none => simpa [handleClose, hg] using h
    | some client =>
      have h2 : keyMem (mapDelete clients cid) id = true := by
        simpa [handleClose, hg] using h
      exact (keyMem_mapDelete_iff.1 h2).1

theorem keyMem_step (s : SState) (e : Event) (id : String)
    (h : keyMem (step s e).1.clients id = true) :
    keyMem s.clients id = true ∨
      ∃ w, (w, OutMsg.registered id) ∈ (step s e).2 := by
  cases e with
  | connect c =>
    have hcl : (step s (Event.connect c)).1.clients = s.clients := by
      rw [step]
      split <;> rfl
    rw [hcl] at h
    exact Or.inl h
  | msg c m =>
    cases hl : lookupConn s.conns c with
    | none =>
      simp only [step, hl] at h
      exact Or.inl h
    | some cid =>
      have hstep1 : (step s (Event.msg c m)).1.clients =
          (handleMessage c s.clients cid m).1 := by
        simp [step, hl]
      have hstep2 : (step s (Event.msg c m)).2 =
          (handleMessage c s.clients cid m).2.2 := by
        simp [step, hl]
      rw [hstep1] at h
      rcases keyMem_handleMessage c s.clients cid m id h with h1 | h1
      · exact Or.inl h1
      · refine Or.inr ⟨c, ?_⟩
        rw [hstep2]
        exact h1
  | close c =>
    cases hl : lookupConn s.conns c with
    | none =>
      simp only [step, hl] at h
      exact Or.inl h
    | some cid =>
      have hstep1 : (step s (Event.close c)).1.clients =
          (handleClose s.clients cid).1 := by
        simp [step, hl]
      rw [hstep1] at h
      exact Or.inl (keyMem_handleClose s.clients cid id h)

theorem keyMem_runFrom (tr : List Event) : ∀ (s : SState) (id : String),
    keyMem (runFrom s tr).1.clients id = true →
    keyMem s.clients id = true ∨
      ∃ w, (w, OutMsg.registered id) ∈ (runFrom s tr).2 := by
  induction tr with
  | nil => exact fun s id h => Or.inl h
  | cons e es ih =>
    intro s id h
    have h1 : keyMem (runFrom (step s e).1 es).1.clients id = true := h
    rcases ih (step s e).1 id h1 with h2 | ⟨w, hw⟩
    · rcases keyMem_step s e id h2 with h3 | ⟨w, hw⟩
      · exact Or.inl h3
      · refine Or.inr ⟨w, ?_⟩
        show (w, OutMsg.registered id) ∈ (step s e).2 ++ (runFrom (step s e).1 es).2
        exact List.mem_append_left _ hw
    · refine Or.inr ⟨w, ?_⟩
      show (w, OutMsg.registered id) ∈ (step s e).2 ++ (runFrom (step s e).1 es).2
      exact List.mem_append_right _ hw

/-! ## Invariant preservation -/

theorem invParts_connect {clients : Registry}
    {conns : List (Nat × Option String)} (h : InvParts clients conns)
    {c : Nat} (hc : c ∉ conns.map Prod.fst) :
    InvParts clients (conns ++ [(c, none)]) := by
  obtain ⟨hnd, hreg, hinj⟩ := h
  refine ⟨?_, ?_, ?_⟩
  · rw [List.map_append, List.nodup_append]
    refine ⟨hnd, List.nodup_singleton _, ?_⟩
    simpa using hc
  · intro id
    rw [hreg id]
    constructor
    · rintro ⟨c2, h2⟩
      exact ⟨c2, List.mem_append_left _ h2⟩
    · rintro ⟨c2, h2⟩
      rcases List.mem_append.1 h2 with h2 | h2
      · exact ⟨c2, h2⟩
      · rw [List.mem_singleton, Prod.mk.injEq] at h2
        exact Option.noConfusion h2.2
  · intro c1 c2 id h1 h2
    rcases List.mem_append.1 h1 with h1 | h1
    · rcases List.mem_append.1 h2 with h2 | h2
      · exact hinj c1 c2 id h1 h2
      · rw [List.mem_singleton, Prod.mk.injEq] at h2
        exact Option.noConfusion h2.2
    · rw [List.mem_singleton, Prod.mk.injEq] at h1
      exact Option.noConfusion h1.2

theorem invParts_register {clients : Registry}
    {conns : List (Nat × Option String)} (h : InvParts clients conns)
    {c : Nat} {newId : String} (v : Client)
    (hmem : (c, (none : Option String)) ∈ conns)
    (hfresh : keyMem clients newId = false) :
    InvParts (mapSet clients newId v) (updateConn conns c (some newId)) := by
  obtain ⟨hnd, hreg, hinj⟩ := h
  refine ⟨?_, ?_, ?_⟩
  · rw [keys_updateConn]
    exact hnd
  · intro id
    rw [keyMem_mapSet_iff]
    constructor
    · rintro (hm | rfl)
      · obtain ⟨c2, h2⟩ := (hreg id).1 hm
        have hc2 : c2 ≠ c := by
          intro he
          subst he
          exact Option.noConfusion (conn_val_unique hnd h2 hmem)
        exact ⟨c2, mem_updateConn.2 (Or.inr ⟨hc2, h2⟩)⟩
      · exact ⟨c, mem_updateConn.2 (Or.inl ⟨rfl, rfl, ⟨none, hmem⟩⟩)⟩
    · rintro ⟨c2, h2⟩
      rcases mem_updateConn.1 h2 with ⟨heq, hv, _⟩ | ⟨hne, h2m⟩
      · exact Or.inr (Option.some.inj hv)
      · exact Or.inl ((hreg id).2 ⟨c2, h2m⟩)
  · intro c1 c2 id h1 h2
    rcases mem_updateConn.1 h1 with ⟨he1, hv1, _⟩ | ⟨hne1, h1m⟩ <;>
      rcases mem_updateConn.1 h2 with ⟨he2, hv2, _⟩ | ⟨hne2, h2m⟩
    · rw [he1, he2]
    · exfalso
      have hid : id = newId := Option.some.inj hv1
      subst hid
      have hkm := (hreg id).2 ⟨c2, h2m⟩
      rw [hfresh] at hkm
      exact Bool.false_ne_true hkm
    · exfalso
      have hid : id = newId := Option.some.inj hv2
      subst hid
      have hkm := (hreg id).2 ⟨c1, h1m⟩
      rw [hfresh] at hkm
      exact Bool.false_ne_true hkm
    · exact hinj c1 c2 id h1m h2m

theorem invParts_close_none {clients : Registry}
    {conns : List (Nat × Option String)} (h : InvParts clients conns)
    {c : Nat} (hmem : (c, (none : Option String)) ∈ conns) :
    InvParts clients (removeConn conns c) := by
  obtain ⟨hnd, hreg, hinj⟩ := h
  refine ⟨List.Nodup.sublist (keys_removeConn_sublist conns c) hnd, ?_, ?_⟩
  · intro id
    rw [hreg id]
    constructor
    · rintro ⟨c2, h2⟩
      have hc2 : c2 ≠ c := by
        intro he
        subst he
        exact Option.noConfusion (conn_val_unique hnd h2 hmem)
      exact ⟨c2, mem_removeConn.2 ⟨h2, hc2⟩⟩
    · rintro ⟨c2, h2⟩
      exact ⟨c2, (mem_removeConn.1 h2).1⟩
  · intro c1 c2 id h1 h2
    exact hinj c1 c2 id (mem_removeConn.1 h1).1 (mem_removeConn.1 h2).1

theorem invParts_close_some {clients : Registry}
    {conns : List (Nat × Option String)} (h : InvParts clients conns)
    {c : Nat} {i : String} (hmem : (c, some i) ∈ conns) :
    InvParts (mapDelete clients i) (removeConn conns c) := by
  obtain ⟨hnd, hreg, hinj⟩ := h
  refine ⟨List.Nodup.sublist (keys_removeConn_sublist conns c) hnd, ?_, ?_⟩
  · intro id
    rw [keyMem_mapDelete_iff]
    constructor
    · rintro ⟨hm, hne⟩
      obtain ⟨c2, h2⟩ := (hreg id).1 hm
      have hc2 : c2 ≠ c := by
        intro he
        subst he
        exact hne (Option.some.inj (conn_val_unique hnd h2 hmem))
      exact ⟨c2, mem_removeConn.2 ⟨h2, hc2⟩⟩
    · rintro ⟨c2, h2⟩
      obtain ⟨h2m, h2ne⟩ := mem_removeConn.1 h2
      refine ⟨(hreg id).2 ⟨c2, h2m⟩, ?_⟩
      intro he
      subst he
      exact h2ne (hinj c2 c id h2m hmem)
  · intro c1 c2 id h1 h2
    exact hinj c1 c2 id (mem_removeConn.1 h1).1 (mem_removeConn.1 h2).1

theorem inv_step (s : SState) (e : Event) (hI : Inv s)
    (hg : goodStep s e = true) : Inv (step s e).1 := by
  obtain ⟨hnd, hreg, hinj⟩ := hI
  cases e with
  | connect c =>
    by_cases hc : ((lookupConn s.conns c).isSome || s.closedConns.contains c) = true
    · have hs : (step s (Event.connect c)).1 = s := by
        rw [step, if_pos hc]
      rw [hs]
      exact ⟨hnd, hreg, hinj⟩
    · have hnone : lookupConn s.conns c = none := by
        cases hlc : lookupConn s.conns c with
        | none => rfl
        | some v => exact absurd (by simp [hlc]) hc
      have hcnot : c ∉ s.conns.map Prod.fst := lookupConn_none_iff.1 hnone
      have hs : (step s (Event.connect c)).1 =
          { s with conns := s.conns ++ [(c, none)] } := by
        rw [step, if_neg hc]
      rw [hs]
      exact invParts_connect ⟨hnd, hreg, hinj⟩ hcnot
  | msg c m =>
    cases hl : lookupConn s.conns c with
    | none =>
      have hs : (step s (Event.msg c m)).1 = s := by
        simp [step, hl]
      rw [hs]
      exact ⟨hnd, hreg, hinj⟩
    | some cid =>
      have hmemc : (c, cid) ∈ s.conns := lookupConn_mem hl
      by_cases hr : ∃ role name now rand, m = InMsg.register role name now rand
      · obtain ⟨role, name, now, rand, rfl⟩ := hr
        cases cid with
        | some j =>
          exfalso
          simp [goodStep, hl] at hg
        | none =>
          have hfresh : keyMem s.clients (generateId now rand) = false := by
            simpa [goodStep, hl] using hg
          have hs : (step s (Event.msg c (InMsg.register role name now rand))).1 =
              { s with
                clients := mapSet s.clients (generateId now rand)
                  ⟨generateId now rand, role, orUnknown name, c⟩,
                conns := updateConn s.conns c (some (generateId now rand)) } := by
            simp [step, hl, handleMessage]
          rw [hs]
          exact invParts_register ⟨hnd, hreg, hinj⟩ _ hmemc hfresh
      · push_neg at hr
        have hpres := handleMessage_preserves c s.clients cid m hr
        have hup : updateConn s.conns c cid = s.conns :=
          updateConn_self hnd hmemc
        have hs : (step s (Event.msg c m)).1 = s := by
          simp only [step, hl]
          rw [hpres.1, hpres.2, hup]
        rw [hs]
        exact ⟨hnd, hreg, hinj⟩
  | close c =>
    cases hl : lookupConn s.conns c with
    | none =>
      have hs : (step s (Event.close c)).1 = s := by
        simp [step, hl]
      rw [hs]
      exact ⟨hnd, hreg, hinj⟩
    | some cid =>
      have hmemc : (c, cid) ∈ s.conns := lookupConn_mem hl
      cases cid with
      | none =>
        have hs : (step s (Event.close c)).1 =
            { s with conns := removeConn s.conns c,
                     closedConns := s.closedConns ++ [c] } := by
          simp [step, hl, handleClose]
        rw [hs]
        exact invParts_close_none ⟨hnd, hreg, hinj⟩ hmemc
      | some i =>
        have hkm : keyMem s.clients i = true := (hreg i).2 ⟨c, hmemc⟩
        obtain ⟨cl, hcl⟩ := mapGet_isSome_of_keyMem hkm
        have hs : (step s (Event.close c)).1 =
            { s with clients := mapDelete s.clients i,
                     conns := removeConn s.conns c,
                     closedConns := s.closedConns ++ [c] } := by
          simp [step, hl, handleClose, hcl]
        rw [hs]
        exact invParts_close_some ⟨hnd, hreg, hinj⟩ hmemc

theorem inv_init : Inv initState := by
  refine ⟨List.nodup_nil, fun id => ?_, fun c1 c2 id h1 _ => absurd h1 (List.not_mem_nil _)⟩
  simp [initState, keyMem]

theorem inv_runFrom (tr : List Event) : ∀ (s : SState), Inv s →
    goodTrace s tr = true → Inv (runFrom s tr).1 := by
  induction tr with
  | nil => exact fun s hI _ => hI
  | cons e es ih =>
    intro s hI hg
    rw [goodTrace, Bool.and_eq_true] at hg
    exact ih (step s e).1 (inv_step s e hI hg.1) hg.2

/-! ## Claim theorems -/

/-- C3: processing `register{role: monitor}` in a state with N registered
cameras (when the generated id is fresh) inserts the new monitor, replies
`registered{id}` to the sender, and then sends exactly one
`request-offer` to the channel of each registered camera, every one carrying
the newly assigned monitor id — and nothing else (in particular no
`request-offer` to any monitor). -/
theorem monitor_registration_requests_offers
    (ws : Nat) (clients : Registry) (clientId : Option String)
    (name : Option String) (now : Nat) (rand : String)
    (hfresh : keyMem clients (generateId now rand) = false) :
    handleMessage ws clients clientId (InMsg.register "monitor" name now rand) =
      (mapSet clients (generateId now rand)
         ⟨generateId now rand, "monitor", orUnknown name, ws⟩,
       some (generateId now rand),
       (ws, OutMsg.registered (generateId now rand)) ::
         (getCameras clients).map
           (fun cam => (cam.ws, OutMsg.requestOffer (generateId now rand)))) := by
  have hmc : ("monitor" : String) ≠ "camera" := by decide
  simp only [handleMessage]
  rw [mapSet_of_fresh _ _ _ hfresh, getCameras_append]
  simp [hmc, mapSet_of_fresh _ _ _ hfresh]

/-- Witness for C3: a monitor registering into `regW` (two cameras, one
monitor) triggers exactly two `request-offer` sends, to channels 10 and 11. -/
theorem monitor_registration_requests_offers_w :
    keyMem regW (generateId 0 "zz") = false ∧
    handleMessage 9 regW none (InMsg.register "monitor" none 0 "zz") =
      (mapSet regW (generateId 0 "zz") ⟨generateId 0 "zz", "monitor", orUnknown none, 9⟩,
       some (generateId 0 "zz"),
       (9, OutMsg.registered (generateId 0 "zz")) ::
         (getCameras regW).map
           (fun cam => (cam.ws, OutMsg.requestOffer (generateId 0 "zz")))) :=
  ⟨by decide, monitor_registration_requests_offers 9 regW none none 0 "zz" (by decide)⟩

/-- C4: processing `register{role: camera}` in a state with M registered
monitors (when the generated id is fresh) inserts the new camera, replies
`registered{id}` to the sender, and then sends exactly M `request-offer`
messages, all of them to the own channel `ws` of the new camera, one per
existing monitor, each carrying the id of that monitor — nothing is sent to the
monitors themselves. -/
theorem camera_registration_receives_offers
    (ws : Nat) (clients : Registry) (clientId : Option String)
    (name : Option String) (now : Nat) (rand : String)
    (hfresh : keyMem clients (generateId now rand) = false) :
    handleMessage ws clients clientId (InMsg.register "camera" name now rand) =
      (mapSet clients (generateId now rand)
         ⟨generateId now rand, "camera", orUnknown name, ws⟩,
       some (generateId now rand),
       (ws, OutMsg.registered (generateId now rand)) ::
         (getMonitors clients).map
           (fun monitor => (ws, OutMsg.requestOffer monitor.id))) := by
  have hcm : ("camera" : String) ≠ "monitor" := by decide
  simp only [handleMessage]
  rw [mapSet_of_fresh _ _ _ hfresh, getMonitors_append]
  simp [hcm, mapSet_of_fresh _ _ _ hfresh]

/-- Witness for C4: a camera registering into `regW` (one monitor) receives
exactly one `request-offer` on its own channel 9, carrying monitor id `mc`. -/
theorem camera_registration_receives_offers_w :
    keyMem regW (generateId 0 "zz") = false ∧
    handleMessage 9 regW none (InMsg.register "camera" none 0 "zz") =
      (mapSet regW (generateId 0 "zz") ⟨generateId 0 "zz", "camera", orUnknown none, 9⟩,
       some (generateId 0 "zz"),
       (9, OutMsg.registered (generateId 0 "zz")) ::
         (getMonitors regW).map
           (fun monitor => (9, OutMsg.requestOffer monitor.id))) :=
  ⟨by decide, camera_registration_receives_offers 9 regW none none 0 "zz" (by decide)⟩

/-- C5: an inbound `offer` / `answer` / `ice-candidate` whose `targetId` is
present in the Registry produces exactly one send, to the channel of the target,
of the same type, with the opaque payload and `fromId` (and `cameraName`
for `offer`) carried over unchanged and `targetId` dropped; the Registry
and the `clientId` of the connection are unchanged. -/
theorem relay_present_forwards_once
    (ws : Nat) (clients : Registry) (clientId : Option String)
    (targetId pA pB pC : String) (target : Client)
    (hget : mapGet clients targetId = some target) :
    handleMessage ws clients clientId (InMsg.offer targetId pA pB pC) =
        (clients, clientId, [(target.ws, OutMsg.offer pA pB pC)]) ∧
    handleMessage ws clients clientId (InMsg.answer targetId pA pB) =
        (clients, clientId, [(target.ws, OutMsg.answer pA pB)]) ∧
    handleMessage ws clients clientId (InMsg.ice targetId pA pB) =
        (clients, clientId, [(target.ws, OutMsg.ice pA pB)]) := by
  refine ⟨?_, ?_, ?_⟩ <;> simp [handleMessage, hget]

/-- Witness for C5: relaying to the present id `mc` in `regW` forwards one
message to channel 12. -/
theorem relay_present_forwards_once_w :
    mapGet regW "mc" = some monC ∧
    handleMessage 7 regW (some "ca") (InMsg.offer "mc" "SDP" "ca" "A") =
        (regW, some "ca", [(monC.ws, OutMsg.offer "SDP" "ca" "A")]) ∧
    handleMessage 7 regW (some "ca") (InMsg.answer "mc" "SDP" "ca") =
        (regW, some "ca", [(monC.ws, OutMsg.answer "SDP" "ca")]) ∧
    handleMessage 7 regW (some "ca") (InMsg.ice "mc" "CAND" "ca") =
        (regW, some "ca", [(monC.ws, OutMsg.ice "CAND" "ca")]) :=
  ⟨by decide, relay_present_forwards_once 7 regW (some "ca") "mc" "SDP" "ca" "A" monC (by decide) |>.1,
   relay_present_forwards_once 7 regW (some "ca") "mc" "SDP" "ca" "A" monC (by decide) |>.2.1,
   relay_present_forwards_once 7 regW (some "ca") "mc" "CAND" "ca" "A" monC (by decide) |>.2.2⟩

/-- C6: an inbound `offer` / `answer` / `ice-candidate` whose `targetId` is
absent from the Registry produces zero sends, leaves the Registry and the
`clientId` of the connection unchanged, and (last conjunct) no inbound message
ever closes a connection: the set of closed connections after any `msg`
event equals the one before. -/
theorem relay_miss_silent
    (ws : Nat) (clients : Registry) (clientId : Option String)
    (targetId pA pB pC : String)
    (hget : mapGet clients targetId = none) :
    handleMessage ws clients clientId (InMsg.offer targetId pA pB pC) =
        (clients, clientId, []) ∧
    handleMessage ws clients clientId (InMsg.answer targetId pA pB) =
        (clients, clientId, []) ∧
    handleMessage ws clients clientId (InMsg.ice targetId pA pB) =
        (clients, clientId, []) ∧
    (∀ (s : SState) (c : Nat) (m : InMsg),
      ((step s (Event.msg c m)).1).closedConns = s.closedConns) := by
  refine ⟨by simp [handleMessage, hget], by simp [handleMessage, hget],
    by simp [handleMessage, hget], ?_⟩
  intro s c m
  cases h : lookupConn s.conns c <;> simp [step, h]

/-- Witness for C6: relaying to the absent id `nope` in `regW` sends nothing
and changes nothing. -/
theorem relay_miss_silent_w :
    mapGet regW "nope" = none ∧
    handleMessage 7 regW (some "ca") (InMsg.offer "nope" "SDP" "ca" "A") =
        (regW, some "ca", []) :=
  ⟨by decide, (relay_miss_silent 7 regW (some "ca") "nope" "SDP" "ca" "A" (by decide)).1⟩

/-- C7: when the channel of a registered client closes, the close handler
computes the notification fan-out from the Registry before removal: a
close of a camera sends exactly one `camera-disconnected{cameraId}` to each
registered monitor; the close of a monitor sends exactly one
`monitor-disconnected{monitorId}` to each registered camera; afterwards the
entry is deleted, so a lookup of the departed id is a routing miss. -/
theorem close_notifies_and_removes
    (clients : Registry) (cid : String) (client : Client)
    (hget : mapGet clients cid = some client) :
    (client.role = "camera" →
      handleClose clients (some cid) =
        (mapDelete clients cid,
         (getMonitors clients).map
           (fun monitor => (monitor.ws, OutMsg.cameraDisconnected cid)))) ∧
    (client.role = "monitor" →
      handleClose clients (some cid) =
        (mapDelete clients cid,
         (getCameras clients).map
           (fun cam => (cam.ws, OutMsg.monitorDisconnected cid)))) ∧
    mapGet (mapDelete clients cid) cid = none := by
  refine ⟨fun hrole => ?_, fun hrole => ?_, mapGet_mapDelete_self clients cid⟩
  · have hne : client.role ≠ "monitor" := by rw [hrole]; decide
    simp [handleClose, hget, hrole, hne]
  · have hne : client.role ≠ "camera" := by rw [hrole]; decide
    simp [handleClose, hget, hrole, hne]

/-- Witness for C7: closing camera `ca` in `regW` notifies the one monitor
(channel 12) and removes `ca`. -/
theorem close_notifies_and_removes_w :
    mapGet regW "ca" = some camA ∧ camA.role = "camera" ∧
    handleClose regW (some "ca") =
      (mapDelete regW "ca",
       (getMonitors regW).map
         (fun monitor => (monitor.ws, OutMsg.cameraDisconnected "ca"))) ∧
    mapGet (mapDelete regW "ca") "ca" = none :=
  ⟨by decide, by decide,
   (close_notifies_and_removes regW "ca" camA (by decide)).1 (by decide),
   (close_notifies_and_removes regW "ca" camA (by decide)).2.2⟩

/-- C8: the close of a connection that never completed a `register`
(its `clientId` variable is still null) sends nothing and leaves the
Registry exactly as it was. -/
theorem close_unregistered_noop (s : SState) (c : Nat)
    (h : lookupConn s.conns c = some none) :
    (step s (Event.close c)).1.clients = s.clients ∧
    (step s (Event.close c)).2 = [] := by
  simp [step, h, handleClose]

/-- Witness for C8: closing a connected-but-unregistered channel 5 keeps the
registry intact and sends nothing. -/
theorem close_unregistered_noop_w :
    lookupConn (SState.mk regW [(5, none)] []).conns 5 = some none ∧
    (step (SState.mk regW [(5, none)] []) (Event.close 5)).1.clients = regW ∧
    (step (SState.mk regW [(5, none)] []) (Event.close 5)).2 = [] :=
  ⟨by decide, (close_unregistered_noop (SState.mk regW [(5, none)] []) 5 (by decide)).1,
   (close_unregistered_noop (SState.mk regW [(5, none)] []) 5 (by decide)).2⟩

/-- C9: a frame on which `JSON.parse` throws (`malformed`) and a parsed
message whose discriminant is none of `register` / `offer` / `answer` /
`ice-candidate` (`other`) each produce no reply and no Registry or
`clientId` change, and no inbound frame ever closes the connection. -/
theorem malformed_and_unknown_ignored :
    (∀ (ws : Nat) (clients : Registry) (clientId : Option String),
      handleMessage ws clients clientId InMsg.malformed = (clients, clientId, []) ∧
      handleMessage ws clients clientId InMsg.other = (clients, clientId, [])) ∧
    (∀ (s : SState) (c : Nat),
      ((step s (Event.msg c InMsg.malformed)).1).clients = s.clients ∧
      ((step s (Event.msg c InMsg.other)).1).clients = s.clients ∧
      (step s (Event.msg c InMsg.malformed)).2 = [] ∧
      (step s (Event.msg c InMsg.other)).2 = [] ∧
      ((step s (Event.msg c InMsg.malformed)).1).closedConns = s.closedConns ∧
      ((step s (Event.msg c InMsg.other)).1).closedConns = s.closedConns) := by
  refine ⟨fun ws clients clientId => ⟨rfl, rfl⟩, fun s c => ?_⟩
  cases h : lookupConn s.conns c <;>
    simp [step, h, handleMessage]

/-- C10: a `register` whose role is outside {camera, monitor} still creates
a Registry entry carrying that role and replies `registered{id}` with no
`request-offer` at all; on close of that connection no disconnected
notification is sent to anyone, but the entry is still removed. -/
theorem unknown_role_register_and_close
    (ws : Nat) (clients : Registry) (clientId : Option String)
    (role : String) (name : Option String) (now : Nat) (rand : String)
    (h1 : role ≠ "camera") (h2 : role ≠ "monitor") :
    handleMessage ws clients clientId (InMsg.register role name now rand) =
      (mapSet clients (generateId now rand)
         ⟨generateId now rand, role, orUnknown name, ws⟩,
       some (generateId now rand),
       [(ws, OutMsg.registered (generateId now rand))]) ∧
    mapGet (mapSet clients (generateId now rand)
        ⟨generateId now rand, role, orUnknown name, ws⟩) (generateId now rand) =
      some ⟨generateId now rand, role, orUnknown name, ws⟩ ∧
    handleClose (mapSet clients (generateId now rand)
        ⟨generateId now rand, role, orUnknown name, ws⟩) (some (generateId now rand)) =
      (mapDelete (mapSet clients (generateId now rand)
          ⟨generateId now rand, role, orUnknown name, ws⟩) (generateId now rand), []) ∧
    mapGet (mapDelete (mapSet clients (generateId now rand)
        ⟨generateId now rand, role, orUnknown name, ws⟩) (generateId now rand))
        (generateId now rand) = none := by
  refine ⟨?_, mapGet_mapSet_self clients (generateId now rand) _, ?_,
    mapGet_mapDelete_self _ (generateId now rand)⟩
  · simp [handleMessage, h1, h2]
  · simp [handleClose, mapGet_mapSet_self, h1, h2]

/-- Witness for C10: registering with role `robot` creates the entry, sends
only the `registered` reply, and closing removes it silently. -/
theorem unknown_role_register_and_close_w :
    handleMessage 9 regW none (InMsg.register "robot" none 0 "zz") =
      (mapSet regW (generateId 0 "zz") ⟨generateId 0 "zz", "robot", orUnknown none, 9⟩,
       some (generateId 0 "zz"),
       [(9, OutMsg.registered (generateId 0 "zz"))]) ∧
    handleClose (mapSet regW (generateId 0 "zz")
        ⟨generateId 0 "zz", "robot", orUnknown none, 9⟩) (some (generateId 0 "zz")) =
      (mapDelete (mapSet regW (generateId 0 "zz")
          ⟨generateId 0 "zz", "robot", orUnknown none, 9⟩) (generateId 0 "zz"), []) :=
  ⟨(unknown_role_register_and_close 9 regW none "robot" none 0 "zz"
      (by decide) (by decide)).1,
   (unknown_role_register_and_close 9 regW none "robot" none 0 "zz"
      (by decide) (by decide)).2.2.1⟩

/-- C1 counterexample: in `trStale` connection 0 completes registration and
is sent `registered` with id `0aaa`, registers again (getting `0bbb`), and
then closes; 0 is recorded as closed, yet `0aaa` — an id assigned to that
connection — is still a Registry key in the final state.  The close handler
deletes only the latest id of the connection, so the claimed "after a connection
closes, no id ever assigned to that connection remains" is false. -/
theorem stale_id_survives_close_cx :
    (0, OutMsg.registered (generateId 0 "aaa")) ∈ runOut trStale ∧
    (run trStale).closedConns = [0] ∧
    keyMem (run trStale).clients (generateId 0 "aaa") = true := by
  decide

/-- C1 (amended): along every trace in which no connection re-registers and
every generated id is fresh (not a current Registry key) — the `goodTrace`
discipline — the Registry contains an entry for `id` exactly when some
current registration id of some still-open connection is `id`; in particular a
close removes the connection from the open set and its current id from the
Registry.  Without that restriction the invariant fails (see the
counterexample): a re-registration strands the old id in the Registry. -/
theorem registry_matches_open_registrations (tr : List Event)
    (h : goodTrace initState tr = true) (id : String) :
    keyMem (run tr).clients id = true ↔
      ∃ c, (c, some id) ∈ (run tr).conns :=
  (inv_runFrom tr initState inv_init h).2.1 id

/-- Witness for C1 (amended), at the single-registration trace `trGood`
and the id it generates. -/
theorem registry_matches_open_registrations_w :
    goodTrace initState trGood = true ∧
    (keyMem (run trGood).clients (generateId 0 "aaa") = true ↔
      ∃ c, (c, some (generateId 0 "aaa")) ∈ (run trGood).conns) :=
  ⟨by decide,
   registry_matches_open_registrations trGood (by decide) (generateId 0 "aaa")⟩

/-- C2 counterexample: the claim quantifies over all outcomes of the id
random component of the id generator, but `generateId` consults neither the
Registry nor previous outputs.  After `trColl` (whose register ran with
clock reading 0 and random outcome `aaa`), the id `generateId 0 "aaa"` is a
live Registry key; the register processed next on connection 1 with the
same clock reading and the same random outcome issues exactly that id —
its `registered` reply carries it — so the produced id collides with a
live entry. -/
theorem register_id_collides_cx :
    keyMem (run trColl).clients (generateId 0 "aaa") = true ∧
    (1, OutMsg.registered (generateId 0 "aaa")) ∈ runOut trColl2 := by
  decide

/-- C2 (amended): every id currently present in the Registry was issued by
some earlier `registered` reply, so a register whose generated id differs
from every previously issued id (for example because the base-36 timestamp
component strictly grew) produces an id not currently present in the
Registry.  Distinctness for all outcomes of the random component alone is
false (see the counterexample). -/
theorem registry_ids_were_issued (tr : List Event) (id : String)
    (h : ∀ p ∈ runOut tr, p.2 ≠ OutMsg.registered id) :
    keyMem (run tr).clients id = false := by
  cases hk : keyMem (run tr).clients id with
  | false => rfl
  | true =>
    exfalso
    rcases keyMem_runFrom tr initState id hk with h0 | ⟨w, hw⟩
    · simp [initState, keyMem] at h0
    · exact h (w, OutMsg.registered id) hw rfl

/-- Witness for C2 (amended): the id `zz` was never issued along `trGood`,
and indeed it is not a Registry key afterwards. -/
theorem registry_ids_were_issued_w :
    (∀ p ∈ runOut trGood, p.2 ≠ OutMsg.registered "zz") ∧
    keyMem (run trGood).clients "zz" = false :=
  ⟨by decide, registry_ids_were_issued trGood "zz" (by decide)⟩

end Signaling
